import Mathlib

/-!
Verification development for the k8s-acm-certificate-agent repository.

The Go sources under controllers/ and global/ are shallowly embedded:
Go maps of annotations become association lists, the Kubernetes and AWS
clients become explicit oracles describing the outcome of each external
call, and every reconciler body becomes a pure function that also
returns the ordered trace of external calls it performed.  Unbounded Go
loops are embedded with an explicit fuel argument so that divergence is
observable.
-/

namespace AcmAgent

/-! ## Annotation maps (Go map[string]string) -/

/-- Association-list model of a Go string map.  Lookup returns the first
binding; Go maps hold each key at most once, which well-formed states
respect. -/
abbrev AnnMap := List (String × String)

/-- Go map read returning presence, as in v, ok := m[k]. -/
def annLookup (m : AnnMap) (k : String) : Option String :=
  (List.find? (fun p => p.1 == k) m).map (fun p => p.2)

/-- Go map read without the ok flag: a missing key yields the zero value,
the empty string. -/
def annGetD (m : AnnMap) (k : String) : String :=
  (annLookup m k).getD ""

/-- Go map assignment m[k] = v. -/
def annSet (m : AnnMap) (k v : String) : AnnMap :=
  if (List.any m (fun p => p.1 == k)) then
    List.map (fun p => if p.1 == k then (k, v) else p) m
  else
    m ++ [(k, v)]

/-- Go delete(m, k): every binding of the key disappears. -/
def annDel (m : AnnMap) (k : String) : AnnMap :=
  List.filter (fun p => !(p.1 == k)) m

/-! ## global/global.go constants -/

def PACKAGE_NAME : String := "acm-certificate-agent"
def DOMAIN_NAME : String := "validitron.io"
def FULL_NAME : String := PACKAGE_NAME ++ "." ++ DOMAIN_NAME

def AGENT_ENABLED_KEY : String := FULL_NAME ++ "/enabled"
def AGENT_INHERITS_FROM_KEY : String := FULL_NAME ++ "/inherits-from"
def AGENT_CERTIFICATE_ARN_KEY : String := FULL_NAME ++ "/certificate-arn"
def AGENT_CERTIFICATE_DOMAIN_NAMES_KEY : String := FULL_NAME ++ "/domains"
def AGENT_CERTIFICATE_SERIAL_NUMBER_KEY : String := FULL_NAME ++ "/serial-number"
def AGENT_CERTIFICATE_EXPIRY_DATE_KEY : String := FULL_NAME ++ "/expires"

def ALB_INGRESS_CLASS_KEY : String := "kubernetes.io/ingress.class"
def ALB_INGRESS_LISTEN_PORTS_KEY : String := "alb.ingress.kubernetes.io/listen-ports"
def ALB_INGRESS_CERTIFICATE_ARN_KEY : String := "alb.ingress.kubernetes.io/certificate-arn"

/-- global.go ISO_8601_FORMAT, written in Go reference-time layout syntax.
Note the suffix is a plus sign, not the letter Z of the RFC 3339 layout. -/
def ISO_8601_FORMAT : String := "2006-01-02T15:04:05+07:00"

/-- The layout time.RFC3339 that the ingress reconciler parses with. -/
def RFC3339_LAYOUT : String := "2006-01-02T15:04:05Z07:00"

/-- controllers/helpers.go defaultRequeueLatency, in seconds. -/
def defaultRequeueLatencySeconds : Nat := 20

/-! ## controllers/helpers.go -/

/-- helpers.go containsString. -/
def containsString (slice : List String) (target : String) : Bool :=
  List.any slice (fun item => item == target)

/-- helpers.go containsStringIgnoringCase.  strings.EqualFold is modelled
as equality after lower-casing, which agrees with it on ASCII input. -/
def containsStringIgnoringCase (slice : List String) (target : String) : Bool :=
  List.any slice (fun item => item.toLower == target.toLower)

/-- helpers.go removeString. -/
def removeString (slice : List String) (target : String) : List String :=
  List.filter (fun item => !(item == target)) slice

/-- helpers.go trimSpaceFromSliceElements. -/
def trimSpaceFromSliceElements (slice : List String) : List String :=
  List.map String.trim slice

/-- strconv.ParseBool: the exact set of accepted literals. -/
def goParseBool : String → Option Bool
  | "1" => some true
  | "t" => some true
  | "T" => some true
  | "true" => some true
  | "TRUE" => some true
  | "True" => some true
  | "0" => some false
  | "f" => some false
  | "F" => some false
  | "false" => some false
  | "FALSE" => some false
  | "False" => some false
  | _ => none

/-! ## Certificates and the PEM chain parser (secret_controller.go) -/

/-- One parsed PEM block: the CertificateWrapper structure with the x509
fields the controllers read.  DNs stand for the String form of the
pkix.Name, serial numbers for the big.Int value, and instants for
seconds since the Unix epoch in UTC. -/
structure CertificateWrapper where
  pem : String
  subjectDN : String
  issuerDN : String
  subjectCN : String
  serialNumber : Nat
  notBefore : Int
  notAfter : Int
  dnsNames : List String
deriving Inhabited, DecidableEq, Repr

/-- Indexing helper for the Go loops that walk certificate slices by
position. -/
def certAt (l : List CertificateWrapper) (i : Nat) : CertificateWrapper :=
  List.getD l i default

/-- The inner loop of leaf detection: does any certificate at another
index name this subject as its issuer. -/
def subjectIssuesAnother (l : List CertificateWrapper) (i : Nat) : Bool :=
  List.any (List.range l.length)
    (fun j => (!(j == i)) && ((certAt l j).issuerDN == (certAt l i).subjectDN))

/-- Leaf detection, secret_controller.go lines 366-384: the first
certificate whose subject DN is not the issuer DN of a certificate at a
different index. -/
def findLeaf (l : List CertificateWrapper) : Option CertificateWrapper :=
  (List.find? (fun i => !(subjectIssuesAnother l i)) (List.range l.length)).map (certAt l)

/-- secret_controller.go FindIssuingCertificate: the first pool member
whose subject DN equals the issuer DN of the argument.  The pool is the
whole bundle and the argument itself is never excluded. -/
def findIssuingCertificate (subjectCertificate : CertificateWrapper)
    (certificatePool : List CertificateWrapper) : Option CertificateWrapper :=
  List.find? (fun cand => cand.subjectDN == subjectCertificate.issuerDN) certificatePool

/-- The chain-construction walk, secret_controller.go lines 386-396.
The Go loop is unbounded; fuel makes divergence observable: the Bool is
true when the loop exited through its break, false when fuel ran out
first. -/
def chainWalk (pool : List CertificateWrapper) :
    CertificateWrapper → Nat → List CertificateWrapper × Bool
  | _, 0 => ([], false)
  | current, fuel + 1 =>
    match findIssuingCertificate current pool with
    | none => ([], true)
    | some issuer =>
      let r := chainWalk pool issuer fuel
      (issuer :: r.1, r.2)

/-- ParseCertificateDetails restricted to its chain logic, lines 366-401:
find the leaf, run the walk, then require the intermediate count to be
the block count minus one.  A nil leaf or exhausted fuel yields none
(in Go these are a nil dereference and divergence respectively). -/
def parseChain (l : List CertificateWrapper) (fuel : Nat) :
    Option (CertificateWrapper × List CertificateWrapper) :=
  match findLeaf l with
  | none => none
  | some leaf =>
    let w := chainWalk l leaf fuel
    if w.2 && (w.1.length == l.length - 1) then some (leaf, w.1) else none

/-! ## certificate_controller.go DeleteSecretManagementAnnotations -/

/-- The five keys stripped by DeleteSecretManagementAnnotations. -/
def managementKeys : List String :=
  [AGENT_ENABLED_KEY, AGENT_INHERITS_FROM_KEY, AGENT_CERTIFICATE_ARN_KEY,
   AGENT_CERTIFICATE_EXPIRY_DATE_KEY, AGENT_CERTIFICATE_SERIAL_NUMBER_KEY]

/-- certificate_controller.go lines 213-221, the map transform performed
before the update call: five sequential Go deletes. -/
def deleteSecretManagementAnnots (m : AnnMap) : AnnMap :=
  annDel (annDel (annDel (annDel (annDel m
    AGENT_ENABLED_KEY)
    AGENT_INHERITS_FROM_KEY)
    AGENT_CERTIFICATE_ARN_KEY)
    AGENT_CERTIFICATE_EXPIRY_DATE_KEY)
    AGENT_CERTIFICATE_SERIAL_NUMBER_KEY

/-! ## Go time layout machinery

The controllers format expiry instants with global.ISO_8601_FORMAT and
parse them back with time.RFC3339.  Go layouts are interpreted by
scanning for reference-time chunks; a character sequence that is not a
recognised chunk is emitted and matched literally.  The scanner below
covers exactly the chunk alphabet reachable from the two layouts above,
with the same precedence as the Go scanner: in particular 2006, 01, 02,
15, 04, 05 and Z07:00 are chunks, while a plus sign never starts a
chunk, so the trailing +07:00 of ISO_8601_FORMAT is literal text. -/

inductive GoChunk
  | longYear
  | zeroMonth
  | zeroDay
  | hourChunk
  | zeroMinute
  | zeroSecond
  | isoZoneColon
  | lit (c : Char)
deriving DecidableEq, Repr

def goLayoutChunksAux : List Char → List GoChunk
  | '2' :: '0' :: '0' :: '6' :: rest => .longYear :: goLayoutChunksAux rest
  | '0' :: '1' :: rest => .zeroMonth :: goLayoutChunksAux rest
  | '0' :: '2' :: rest => .zeroDay :: goLayoutChunksAux rest
  | '1' :: '5' :: rest => .hourChunk :: goLayoutChunksAux rest
  | '0' :: '4' :: rest => .zeroMinute :: goLayoutChunksAux rest
  | '0' :: '5' :: rest => .zeroSecond :: goLayoutChunksAux rest
  | 'Z' :: '0' :: '7' :: ':' :: '0' :: '0' :: rest => .isoZoneColon :: goLayoutChunksAux rest
  | c :: rest => .lit c :: goLayoutChunksAux rest
  | [] => []

def goLayoutChunks (layout : String) : List GoChunk :=
  goLayoutChunksAux layout.toList

/-- Proleptic-Gregorian date from a count of days since the Unix epoch
(the standard era-based civil-calendar algorithm, matching the Go time
package).  Returns (year, month, day). -/
def civilFromDays (days : Int) : Int × Nat × Nat :=
  let z := days + 719468
  let era := Int.fdiv z 146097
  let doe := (z - era * 146097).toNat
  let yoe := (doe - doe / 1460 + doe / 36524 - doe / 146096) / 365
  let y := (yoe : Int) + era * 400
  let doy := doe - (365 * yoe + yoe / 4 - yoe / 100)
  let mp := (5 * doy + 2) / 153
  let d := doy - (153 * mp + 2) / 5 + 1
  let m := if mp < 10 then mp + 3 else mp - 9
  (if m ≤ 2 then y + 1 else y, m, d)

/-- Inverse of civilFromDays. -/
def daysFromCivil (y : Int) (m d : Nat) : Int :=
  let y2 := y - (if m ≤ 2 then 1 else 0)
  let era := Int.fdiv y2 400
  let yoe := (y2 - era * 400).toNat
  let mp := if m > 2 then m - 3 else m + 9
  let doy := (153 * mp + 2) / 5 + d - 1
  let doe := yoe * 365 + yoe / 4 - yoe / 100 + doy
  era * 146097 + (doe : Int) - 719468

/-- Broken-down UTC fields of an instant given in seconds since the Unix
epoch. -/
structure UtcFields where
  year : Int
  month : Nat
  day : Nat
  hour : Nat
  minute : Nat
  second : Nat
deriving DecidableEq, Repr

def utcFieldsOf (t : Int) : UtcFields :=
  let days := Int.fdiv t 86400
  let secs := (Int.fmod t 86400).toNat
  let c := civilFromDays days
  { year := c.1, month := c.2.1, day := c.2.2,
    hour := secs / 3600, minute := secs % 3600 / 60, second := secs % 60 }

def padZeros (width : Nat) (s : String) : String :=
  if s.length < width then String.mk (List.replicate (width - s.length) '0') ++ s else s

def pad2 (n : Nat) : String := padZeros 2 (toString n)

def pad4Year (y : Int) : String :=
  if y < 0 then "-" ++ padZeros 4 (toString (-y).toNat) else padZeros 4 (toString y.toNat)

/-- Emit one layout chunk for a UTC instant, as Go Format does for a
time whose location is UTC (x509 validity instants are UTC): the
Z-prefixed zone chunk prints the single letter Z at offset zero. -/
def formatGoChunk (f : UtcFields) : GoChunk → String
  | .longYear => pad4Year f.year
  | .zeroMonth => pad2 f.month
  | .zeroDay => pad2 f.day
  | .hourChunk => pad2 f.hour
  | .zeroMinute => pad2 f.minute
  | .zeroSecond => pad2 f.second
  | .isoZoneColon => "Z"
  | .lit c => String.singleton c

/-- Go time.Time.Format for a UTC instant. -/
def goTimeFormat (layout : String) (t : Int) : String :=
  String.join (List.map (formatGoChunk (utcFieldsOf t)) (goLayoutChunks layout))

def digitVal (c : Char) : Option Nat :=
  if '0' ≤ c && c ≤ '9' then some (c.toNat - 48) else none

def read2Digits : List Char → Option (Nat × List Char)
  | a :: b :: rest =>
    match digitVal a, digitVal b with
    | some x, some y => some (10 * x + y, rest)
    | _, _ => none
  | _ => none

def read4Digits : List Char → Option (Nat × List Char)
  | a :: b :: c :: d :: rest =>
    match digitVal a, digitVal b, digitVal c, digitVal d with
    | some w, some x, some y, some z => some (1000 * w + 100 * x + 10 * y + z, rest)
    | _, _, _, _ => none
  | _ => none

/-- Numeric zone of the Z07:00 chunk: the letter Z for UTC, otherwise a
signed hh:mm offset in seconds. -/
def readIsoZone : List Char → Option (Int × List Char)
  | 'Z' :: rest => some (0, rest)
  | '+' :: rest =>
    match read2Digits rest with
    | some (h, ':' :: rest2) =>
      (read2Digits rest2).map (fun p => (((h * 3600 + p.1 * 60 : Nat) : Int), p.2))
    | _ => none
  | '-' :: rest =>
    match read2Digits rest with
    | some (h, ':' :: rest2) =>
      (read2Digits rest2).map (fun p => (-((h * 3600 + p.1 * 60 : Nat) : Int), p.2))
    | _ => none
  | _ => none

structure ParsedInstant where
  year : Int
  month : Nat
  day : Nat
  hour : Nat
  minute : Nat
  second : Nat
  offset : Int
deriving Repr

def parseGoChunks : List GoChunk → List Char → ParsedInstant → Option ParsedInstant
  | [], [], acc => some acc
  | [], _ :: _, _ => none
  | chunk :: chunks, cs, acc =>
    match chunk with
    | .longYear =>
      match read4Digits cs with
      | some (y, rest) => parseGoChunks chunks rest { acc with year := (y : Int) }
      | none => none
    | .zeroMonth =>
      match read2Digits cs with
      | some (m, rest) => parseGoChunks chunks rest { acc with month := m }
      | none => none
    | .zeroDay =>
      match read2Digits cs with
      | some (d, rest) => parseGoChunks chunks rest { acc with day := d }
      | none => none
    | .hourChunk =>
      match read2Digits cs with
      | some (h, rest) => parseGoChunks chunks rest { acc with hour := h }
      | none => none
    | .zeroMinute =>
      match read2Digits cs with
      | some (mi, rest) => parseGoChunks chunks rest { acc with minute := mi }
      | none => none
    | .zeroSecond =>
      match read2Digits cs with
      | some (s, rest) => parseGoChunks chunks rest { acc with second := s }
      | none => none
    | .isoZoneColon =>
      match readIsoZone cs with
      | some (off, rest) => parseGoChunks chunks rest { acc with offset := off }
      | none => none
    | .lit c =>
      match cs with
      | c2 :: rest => if c2 == c then parseGoChunks chunks rest acc else none
      | [] => none

/-- Go time.Parse against a layout, yielding the instant in seconds
since the Unix epoch.  Field ranges are validated as Go does (the
per-month day upper bound is approximated by 31; the inputs of interest
are valid dates). -/
def goTimeParse (layout s : String) : Option Int :=
  match parseGoChunks (goLayoutChunks layout) s.toList
      { year := 0, month := 1, day := 1, hour := 0, minute := 0, second := 0, offset := 0 } with
  | none => none
  | some p =>
    if 1 ≤ p.month && p.month ≤ 12 && 1 ≤ p.day && p.day ≤ 31
        && p.hour ≤ 23 && p.minute ≤ 59 && p.second ≤ 59 then
      some (daysFromCivil p.year p.month p.day * 86400
        + (p.hour * 3600 + p.minute * 60 + p.second : Nat) - p.offset)
    else
      none

/-! ## Serial-number formatting and parsing (secret_controller.go) -/

def hexDigitChar (n : Nat) : Char :=
  if n < 10 then Char.ofNat (48 + n) else Char.ofNat (87 + n)

def natToHexAux : Nat → Nat → List Char → List Char
  | 0, _, acc => acc
  | fuel + 1, n, acc =>
    if n = 0 then acc else natToHexAux fuel (n / 16) (hexDigitChar (n % 16) :: acc)

/-- big.Int Text(16): lowercase hex without leading zeros, and the
single digit 0 for zero. -/
def natToHex (n : Nat) : String :=
  if n = 0 then "0" else String.mk (natToHexAux (n + 1) n [])

def pairChunks : List Char → List (List Char)
  | a :: b :: rest => [a, b] :: pairChunks rest
  | [a] => [[a]]
  | [] => []

/-- secret_controller.go FormatX509SerialNumber: lowercase hex,
left-padded to even length, with a colon inserted before every even
position after the first. -/
def formatX509SerialNumber (number : Nat) : String :=
  let hex := natToHex number
  let hex := if hex.length % 2 > 0 then "0" ++ hex else hex
  String.intercalate ":" (List.map String.mk (pairChunks hex.toList))

def hexDigitVal (c : Char) : Option Nat :=
  if '0' ≤ c && c ≤ '9' then some (c.toNat - 48)
  else if 'a' ≤ c && c ≤ 'f' then some (c.toNat - 87)
  else if 'A' ≤ c && c ≤ 'F' then some (c.toNat - 55)
  else none

def parseHexNatAux : List Char → Nat → Option Nat
  | [], acc => some acc
  | c :: rest, acc =>
    match hexDigitVal c with
    | some v => parseHexNatAux rest (acc * 16 + v)
    | none => none

/-- strings.ReplaceAll(s, colon, empty) followed by big.Int SetString in
base 16, restricted to the unsigned hex strings the CCM returns: the ok
flag is false for an empty string or a non-hex character. -/
def parseAcmSerial (s : String) : Option Nat :=
  let stripped := List.filter (fun c => !(c == ':')) s.toList
  if stripped.isEmpty then none else parseHexNatAux stripped 0

/-! ## Cloud oracle and the CCM sync state machine
(secret_controller.go Reconcile lines 153-307) -/

/-- Outcome of an ACM DescribeCertificate call: on success the
certificate record carries its Serial string and CertificateArn. -/
inductive DescribeOutcome
  | found (serial : String) (arn : String)
  | notFound
  | failed
deriving DecidableEq, Repr

/-- Oracle fixing the outcome of every external call a single
reconciliation can make.  listPage models one ListCertificates page for
a pagination token (the empty token is the first page); the empty next
token ends the scan. -/
structure CloudEnv where
  describe : String → DescribeOutcome
  listTags : String → Option AnnMap
  listPage : String → Option (List (String × String) × String)
  importResult : Option String
  addTagsOk : Bool
  updateOk : Bool
  nowStr : String
  correlationId : String

/-- Ordered trace of the cloud calls a reconciliation issues. -/
inductive CloudCall
  | describeCertificate (arn : String)
  | listTagsForCertificate (arn : String)
  | listCertificates (token : Option String)
  | importCertificate (cert : String) (chain : String) (key : String) (arn : Option String)
  | addTagsToCertificate (arn : String) (tags : AnnMap)
deriving DecidableEq, Repr

/-- CertificateDetails of secret_controller.go, minus the unused CA and
name fields. -/
structure CertificateDetails where
  certificate : CertificateWrapper
  intermediates : List CertificateWrapper
  privateKey : String
  certificateArn : Option String
  createdAt : Option String
deriving Repr

/-- ParseCertificateDetails lines 412-417: the ARN annotation becomes
the in-memory ARN when present and non-empty. -/
def parsedCertificateArn (annots : AnnMap) : Option String :=
  let v := annGetD annots AGENT_CERTIFICATE_ARN_KEY
  if v == "" then none else some v

/-- GetACMCertificateTag: one ListTagsForCertificate call; a failed call
or an absent key yields nil. -/
def getACMCertificateTag (env : CloudEnv) (certificateArn : String) (tagKey : String) :
    List CloudCall × Option String :=
  ([.listTagsForCertificate certificateArn],
    match env.listTags certificateArn with
    | none => none
    | some tags => (List.find? (fun t => t.1 == tagKey) tags).map (fun t => t.2))

/-- The per-page body of FindACMCertificatesByDomain: describe every
summary whose domain name matches, collecting (serial, arn) pairs; a
describe failure aborts the scan. -/
def describeSummaries (env : CloudEnv) (domainName : String) :
    List (String × String) → List CloudCall × Option (List (String × String))
  | [] => ([], some [])
  | (dn, arn) :: rest =>
    if dn == domainName then
      match env.describe arn with
      | .found serialStr acmArn =>
        let r := describeSummaries env domainName rest
        (.describeCertificate arn :: r.1, (r.2).map (fun l => (serialStr, acmArn) :: l))
      | _ => ([.describeCertificate arn], none)
    else describeSummaries env domainName rest

/-- FindACMCertificatesByDomain lines 432-480: paginated ListCertificates
scan.  The Go loop is unbounded in the token chain; fuel exhaustion is
reported as a failure. -/
def findACMCertificatesByDomainAux (env : CloudEnv) (domainName : String) :
    Nat → String → List CloudCall × Option (List (String × String))
  | 0, _ => ([], none)
  | fuel + 1, token =>
    let call := CloudCall.listCertificates (if token == "" then none else some token)
    match env.listPage token with
    | none => ([call], none)
    | some (summaries, next) =>
      let dm := describeSummaries env domainName summaries
      match dm.2 with
      | none => (call :: dm.1, none)
      | some pageMatches =>
        if next == "" then (call :: dm.1, some pageMatches)
        else
          let r := findACMCertificatesByDomainAux env domainName fuel next
          (call :: dm.1 ++ r.1, (r.2).map (fun l => pageMatches ++ l))

def findACMCertificatesByDomain (env : CloudEnv) (domainName : String) (fuel : Nat) :
    List CloudCall × Option (List (String × String)) :=
  findACMCertificatesByDomainAux env domainName fuel ""

/-- CertificateWrapperArrayToPEM: nil for an empty slice, otherwise the
PEM blocks joined by newlines. -/
def certificateWrapperArrayToPEM (wrapperArray : List CertificateWrapper) : Option String :=
  if wrapperArray.isEmpty then none
  else some (String.intercalate ("\n") (List.map (fun w => w.pem) wrapperArray))

def extractCertificateDomains (certificate : CertificateWrapper) : List String :=
  certificate.dnsNames

/-- CreateStandardTagArray: correlation id and creator always, the
creation instant preserved from the prior tag when one was captured, in
which case a modification tag is added too. -/
def createStandardTagArray (env : CloudEnv) (createdAtString : Option String) : AnnMap :=
  match createdAtString with
  | none =>
    [("tron/correlationId", env.correlationId),
     ("tron/createdBy", PACKAGE_NAME),
     ("tron/createdAt", env.nowStr)]
  | some created =>
    [("tron/correlationId", env.correlationId),
     ("tron/createdBy", PACKAGE_NAME),
     ("tron/createdAt", created),
     ("tron/modifiedAt", env.nowStr)]

/-- AnnotationMatches: Go map read with zero-value default compared to
the candidate value. -/
def annotMatchesVal (m : AnnMap) (k v : String) : Bool :=
  annGetD m k == v

/-- Result of one run of the sync portion of Reconcile: the cloud-call
trace, the returned requeue latency and error flag, the secret
annotations afterwards, and whether an orchestrator update of the
secret was invoked.  panicked marks a Go runtime panic (the nil-pointer
dereference at line 232), at which point the other fields describe the
state when the panic fired and no further call occurs. -/
structure SyncResult where
  calls : List CloudCall
  requeueAfterSeconds : Option Nat
  errored : Bool
  annots : AnnMap
  wroteAnnots : Bool
  panicked : Bool := false
deriving DecidableEq, Repr

/-- Annotation-sync phase, lines 260-307.  The ARN value dereference at
line 264 happens before the nil check at line 280; every reachable
state carries an ARN there, modelled by the empty-string default. -/
def syncAnnotsPhase (d : CertificateDetails) (secretAnnots : AnnMap) (env : CloudEnv)
    (calls : List CloudCall) : SyncResult :=
  let arnVal := (d.certificateArn).getD ("")
  let serialVal := formatX509SerialNumber d.certificate.serialNumber
  let expiryVal := goTimeFormat ISO_8601_FORMAT d.certificate.notAfter
  let domainsVal := String.intercalate (", ") (extractCertificateDomains d.certificate)
  let shouldUpdate :=
    !(annotMatchesVal secretAnnots AGENT_CERTIFICATE_ARN_KEY arnVal)
    || !(annotMatchesVal secretAnnots AGENT_CERTIFICATE_SERIAL_NUMBER_KEY serialVal)
    || !(annotMatchesVal secretAnnots AGENT_CERTIFICATE_EXPIRY_DATE_KEY expiryVal)
    || !(annotMatchesVal secretAnnots AGENT_CERTIFICATE_DOMAIN_NAMES_KEY domainsVal)
  if shouldUpdate then
    match d.certificateArn with
    | none =>
      { calls := calls, requeueAfterSeconds := some defaultRequeueLatencySeconds,
        errored := true, annots := secretAnnots, wroteAnnots := false }
    | some _ =>
      let annots2 :=
        annSet (annSet (annSet (annSet secretAnnots
          AGENT_CERTIFICATE_ARN_KEY arnVal)
          AGENT_CERTIFICATE_SERIAL_NUMBER_KEY serialVal)
          AGENT_CERTIFICATE_EXPIRY_DATE_KEY expiryVal)
          AGENT_CERTIFICATE_DOMAIN_NAMES_KEY domainsVal
      if env.updateOk then
        { calls := calls, requeueAfterSeconds := none, errored := false,
          annots := annots2, wroteAnnots := true }
      else
        { calls := calls, requeueAfterSeconds := some defaultRequeueLatencySeconds,
          errored := true, annots := annots2, wroteAnnots := true }
  else
    { calls := calls, requeueAfterSeconds := none, errored := false,
      annots := secretAnnots, wroteAnnots := false }

/-- Import phase, lines 224-258.  Line 232 dereferences the result of
CertificateWrapperArrayToPEM unconditionally; that result is nil for an
empty intermediates slice, so the program panics there before it can
issue the import, modelled by the panicked outcome.  Otherwise one
ImportCertificate call (carrying the held ARN when present) is issued,
always followed, on success, by one AddTagsToCertificate call. -/
def syncImportPhase (d : CertificateDetails) (secretAnnots : AnnMap) (env : CloudEnv)
    (calls : List CloudCall) (shouldImport : Bool) : SyncResult :=
  if shouldImport then
    match certificateWrapperArrayToPEM d.intermediates with
    | none =>
      { calls := calls, requeueAfterSeconds := none, errored := false,
        annots := secretAnnots, wroteAnnots := false, panicked := true }
    | some chain =>
      let calls := calls ++ [.importCertificate d.certificate.pem chain d.privateKey d.certificateArn]
      match env.importResult with
      | none =>
        { calls := calls, requeueAfterSeconds := some defaultRequeueLatencySeconds,
          errored := true, annots := secretAnnots, wroteAnnots := false }
      | some newArn =>
        let tags := createStandardTagArray env d.createdAt
        let calls := calls ++ [.addTagsToCertificate newArn tags]
        if env.addTagsOk then
          syncAnnotsPhase { d with certificateArn := some newArn } secretAnnots env calls
        else
          { calls := calls, requeueAfterSeconds := some defaultRequeueLatencySeconds,
            errored := true, annots := secretAnnots, wroteAnnots := false }
  else
    syncAnnotsPhase d secretAnnots env calls

/-- Search phase, lines 198-222: enumerate cloud certificates matching
the leaf subject CN; adopt the first with the leaf serial, otherwise
run a fresh import. -/
def syncSearchPhase (d : CertificateDetails) (secretAnnots : AnnMap) (env : CloudEnv)
    (searchFuel : Nat) (calls0 : List CloudCall) : SyncResult :=
  let r := findACMCertificatesByDomain env d.certificate.subjectCN searchFuel
  match r.2 with
  | none =>
    { calls := calls0 ++ r.1, requeueAfterSeconds := none, errored := true,
      annots := secretAnnots, wroteAnnots := false }
  | some domainMatches =>
    match List.find? (fun m => parseAcmSerial m.1 == some d.certificate.serialNumber)
        domainMatches with
    | some m =>
      syncImportPhase { d with certificateArn := some m.2 } secretAnnots env
        (calls0 ++ r.1) false
    | none => syncImportPhase d secretAnnots env (calls0 ++ r.1) true

/-- The sync portion of SecretReconciler.Reconcile, lines 153-307,
entered after parsing and validity checks succeed. -/
def reconcileSync (certificate : CertificateWrapper) (intermediates : List CertificateWrapper)
    (privateKey : String) (secretAnnots : AnnMap) (env : CloudEnv) (searchFuel : Nat) :
    SyncResult :=
  let d : CertificateDetails :=
    { certificate := certificate, intermediates := intermediates, privateKey := privateKey,
      certificateArn := parsedCertificateArn secretAnnots, createdAt := none }
  match d.certificateArn with
  | some arn =>
    match env.describe arn with
    | .found serialStr acmArn =>
      let shouldImport := !(parseAcmSerial serialStr == some certificate.serialNumber)
      let tagRes := getACMCertificateTag env acmArn ("tron/createdAt")
      syncImportPhase { d with createdAt := tagRes.2 } secretAnnots env
        (.describeCertificate arn :: tagRes.1) shouldImport
    | .notFound =>
      syncSearchPhase { d with certificateArn := none } secretAnnots env searchFuel
        [.describeCertificate arn]
    | .failed =>
      { calls := [.describeCertificate arn],
        requeueAfterSeconds := some defaultRequeueLatencySeconds,
        errored := true, annots := secretAnnots, wroteAnnots := false }
  | none => syncSearchPhase d secretAnnots env searchFuel []

/-! ## Secret reconciler entry (lines 94-100) -/

/-- Outcome of the initial orchestrator Get of the secret. -/
inductive FetchOutcome
  | ok
  | notFound
  | failed
deriving DecidableEq, Repr

/-- What a reconciler body returned to the dispatcher. -/
structure ReconcileReturn where
  requeueAfterSeconds : Option Nat
  errored : Bool
deriving DecidableEq, Repr

/-- Lines 94-100 of SecretReconciler.Reconcile: none means the body
continues; otherwise the returned result.  Both error branches return a
result with RequeueAfter set to the default latency, the not-found
branch with a nil error via IgnoreNotFound. -/
def secretFetchReturn : FetchOutcome → Option ReconcileReturn
  | .ok => none
  | .notFound =>
    some { requeueAfterSeconds := some defaultRequeueLatencySeconds, errored := false }
  | .failed =>
    some { requeueAfterSeconds := some defaultRequeueLatencySeconds, errored := true }

/-! ## Ingress reconciler (ingress_controller.go) -/

/-- The fields of a TLS secret the ingress reconciler reads. -/
structure K8sSecret where
  name : String
  annots : AnnMap
deriving DecidableEq, Repr

structure IngressState where
  annots : AnnMap
  ruleHosts : List String
  deleting : Bool
deriving DecidableEq, Repr

inductive IngressAction
  | removeArnAnn
  | writeArnAnn (value : String)
deriving DecidableEq, Repr

structure IngressOutcome where
  actions : List IngressAction
  annots : AnnMap
  requeueAfterSeconds : Option Nat
  errored : Bool
deriving DecidableEq, Repr

/-- ConvertToWildcardHost: replace the first label with an asterisk. -/
def convertToWildcardHost (hostName : String) : String :=
  let components := hostName.splitOn (".")
  "*." ++ String.intercalate (".") components.tail

/-- The candidate scan of FindCertificateArnForHost, lines 195-225. -/
def findCertificateArnForHostAux (now : Int) (hostName wildcardHostName : String) :
    List K8sSecret → Option String
  | [] => none
  | secret :: rest =>
    let skip := findCertificateArnForHostAux now hostName wildcardHostName rest
    match annLookup secret.annots AGENT_CERTIFICATE_ARN_KEY with
    | none => skip
    | some certificateArn =>
      if certificateArn == "" then skip
      else
        let expired :=
          match annLookup secret.annots AGENT_CERTIFICATE_EXPIRY_DATE_KEY with
          | some e =>
            if e == "" then false
            else
              match goTimeParse RFC3339_LAYOUT e with
              | some expiry => decide (expiry < now)
              | none => false
          | none => false
        if expired then skip
        else
          match annLookup secret.annots AGENT_CERTIFICATE_DOMAIN_NAMES_KEY with
          | none => skip
          | some dn =>
            if dn == "" then skip
            else
              let domainNames := trimSpaceFromSliceElements (dn.splitOn (","))
              if containsStringIgnoringCase domainNames hostName
                  || containsStringIgnoringCase domainNames wildcardHostName then
                some certificateArn
              else skip

/-- FindCertificateArnForHost: the first qualifying secret wins; none
models the error return. -/
def findCertificateArnForHost (now : Int) (secrets : List K8sSecret) (hostName : String) :
    Option String :=
  findCertificateArnForHostAux now hostName (convertToWildcardHost hostName) secrets

/-- Lines 138-146: unique non-empty hosts in first-seen rule order. -/
def hostNamesOf (rules : List String) : List String :=
  List.foldl
    (fun acc h =>
      if h == "" then acc else if containsString acc h then acc else acc ++ [h])
    [] rules

/-- Lines 156-168: resolve each host, collapsing duplicate ARNs and
flagging unmatched hosts. -/
def collectCertificateArns (now : Int) (secrets : List K8sSecret) (hosts : List String) :
    List String × Bool :=
  List.foldl
    (fun (acc : List String × Bool) hostName =>
      match findCertificateArnForHost now secrets hostName with
      | none => (acc.1, true)
      | some arn => (if containsString acc.1 arn then acc.1 else acc.1 ++ [arn], acc.2))
    ([], false) hosts

/-- One model listen-ports entry: a JSON map from protocol to port. -/
abbrev ListenPortMap := List (String × Int)

def hasHttpsEntry (listenPorts : List ListenPortMap) : Bool :=
  List.any listenPorts (fun listenPort => List.any listenPort (fun p => p.1 == "HTTPS"))

/-- Lines 79-87: the agent-enabled annotation gate, with the Go zero
value on an unparsable literal. -/
def ingressAgentEnabled (ing : IngressState) : Bool :=
  match annLookup ing.annots AGENT_ENABLED_KEY with
  | none => false
  | some v => (goParseBool v).getD false

/-- Lines 90-94: the ingress-class annotation must be present and equal
to alb. -/
def ingressClassIsAlb (ing : IngressState) : Bool :=
  match annLookup ing.annots ALB_INGRESS_CLASS_KEY with
  | none => false
  | some c => c == "alb"

/-- An exit that performs no action and leaves the ingress untouched. -/
def noopIngressOutcome (ing : IngressState) : IngressOutcome :=
  { actions := [], annots := ing.annots, requeueAfterSeconds := none, errored := false }

/-- IngressReconciler.Reconcile from line 70 on, for a fetched ingress.
json.Unmarshal is an abstract decoder parameter; the orchestrator List
and Update outcomes are the listOk and updateOk flags. -/
def reconcileIngress (decoder : String → Option (List ListenPortMap)) (now : Int)
    (secrets : List K8sSecret) (ing : IngressState) (listOk updateOk : Bool) :
    IngressOutcome :=
  let noop := noopIngressOutcome ing
  if ing.deleting then noop
  else
    if !(ingressAgentEnabled ing) then noop
    else
      if !(ingressClassIsAlb ing) then noop
      else
        match annLookup ing.annots ALB_INGRESS_LISTEN_PORTS_KEY with
        | none => noop
        | some serializedListenPorts =>
          if serializedListenPorts == "" then noop
          else
            match decoder serializedListenPorts with
            | none => noop
            | some listenPorts =>
              let httpsExpected := hasHttpsEntry listenPorts
              let ingressArn := annLookup ing.annots ALB_INGRESS_CERTIFICATE_ARN_KEY
              if !httpsExpected then
                match ingressArn with
                | some _ =>
                  let annots2 := annDel ing.annots ALB_INGRESS_CERTIFICATE_ARN_KEY
                  { actions := [.removeArnAnn], annots := annots2,
                    requeueAfterSeconds := none, errored := !updateOk }
                | none => noop
              else
                if !listOk then
                  { actions := [], annots := ing.annots,
                    requeueAfterSeconds := none, errored := true }
                else
                  let hostNames := hostNamesOf ing.ruleHosts
                  let collected := collectCertificateArns now secrets hostNames
                  let arnAnnValue := String.intercalate (",") collected.1
                  if !(ingressArn == some arnAnnValue) then
                    let annots2 := annSet ing.annots ALB_INGRESS_CERTIFICATE_ARN_KEY arnAnnValue
                    if updateOk then
                      { actions := [.writeArnAnn arnAnnValue], annots := annots2,
                        requeueAfterSeconds :=
                          if collected.2 then some defaultRequeueLatencySeconds else none,
                        errored := false }
                    else
                      { actions := [.writeArnAnn arnAnnValue], annots := annots2,
                        requeueAfterSeconds := none, errored := true }
                  else
                    { actions := [], annots := ing.annots,
                      requeueAfterSeconds :=
                        if collected.2 then some defaultRequeueLatencySeconds else none,
                      errored := false }

/-! ## Certificate bridge (certificate_controller.go) -/

structure CertRecord where
  uid : String
  secretName : String
  annots : AnnMap
  finalizers : List String
  deleting : Bool
deriving DecidableEq, Repr

def finalizerID : String := DOMAIN_NAME ++ "/" ++ PACKAGE_NAME

inductive SecretGet
  | ok (s : K8sSecret)
  | notFound
  | failed
deriving DecidableEq, Repr

inductive CertGet
  | ok (c : CertRecord)
  | notFound
  | failed
deriving DecidableEq, Repr

/-- Orchestrator oracle for one bridge reconciliation. -/
structure BridgeEnv where
  secretGet : SecretGet
  stripUpdateOk : Bool
  refetch : CertGet
  updateCertOk : Bool
  addAnnotsUpdateOk : Bool

/-- GetSecret, lines 198-211: an empty spec.secretName is a plain error,
otherwise the orchestrator outcome. -/
def getSecretCall (cert : CertRecord) (env : BridgeEnv) : SecretGet :=
  if cert.secretName == "" then .failed else env.secretGet

/-- Observable steps of one bridge reconciliation, in execution order. -/
inductive BridgeEvent
  | getSecret
  | stripSecretAnnots (ok : Bool)
  | refetchCert (ok : Bool)
  | removeFinalizerUpdate (ok : Bool)
  | addFinalizerUpdate (ok : Bool)
  | cacheArnUpdate (ok : Bool)
  | seedSecretAnnots (ok : Bool)
deriving DecidableEq, Repr

structure BridgeOutcome where
  events : List BridgeEvent
  requeueAfterSeconds : Option Nat
  errored : Bool
deriving DecidableEq, Repr

/-- Lines 83-97: refetch the certificate, then strip the finalizer and
persist.  A failed refetch returns without touching the finalizer. -/
def bridgeFinalizerRemoval (ev0 : List BridgeEvent) (env : BridgeEnv) : BridgeOutcome :=
  match env.refetch with
  | .ok _ =>
    if env.updateCertOk then
      { events := ev0 ++ [.refetchCert true, .removeFinalizerUpdate true],
        requeueAfterSeconds := none, errored := false }
    else
      { events := ev0 ++ [.refetchCert true, .removeFinalizerUpdate false],
        requeueAfterSeconds := some defaultRequeueLatencySeconds, errored := true }
  | .notFound =>
    { events := ev0 ++ [.refetchCert false],
      requeueAfterSeconds := some defaultRequeueLatencySeconds, errored := false }
  | .failed =>
    { events := ev0 ++ [.refetchCert false],
      requeueAfterSeconds := some defaultRequeueLatencySeconds, errored := true }

/-- CertificateReconciler.Reconcile from line 60 on, for a fetched
certificate record. -/
def reconcileBridge (cert : CertRecord) (env : BridgeEnv) : BridgeOutcome :=
  if cert.deleting then
    if containsString cert.finalizers finalizerID then
      match getSecretCall cert env with
      | .ok _ =>
        if env.stripUpdateOk then
          bridgeFinalizerRemoval [.getSecret, .stripSecretAnnots true] env
        else
          { events := [.getSecret, .stripSecretAnnots false],
            requeueAfterSeconds := none, errored := true }
      | _ => bridgeFinalizerRemoval [.getSecret] env
    else bridgeFinalizerRemoval [] env
  else
    let needFinalizer := !(containsString cert.finalizers finalizerID)
    if needFinalizer && !env.updateCertOk then
      { events := [.addFinalizerUpdate false],
        requeueAfterSeconds := some defaultRequeueLatencySeconds, errored := true }
    else
      let ev1 := if needFinalizer then [BridgeEvent.addFinalizerUpdate true] else []
      match getSecretCall cert env with
      | .notFound =>
        { events := ev1 ++ [.getSecret],
          requeueAfterSeconds := some defaultRequeueLatencySeconds, errored := false }
      | .failed =>
        { events := ev1 ++ [.getSecret], requeueAfterSeconds := none, errored := true }
      | .ok s =>
        let ev2 := ev1 ++ [BridgeEvent.getSecret]
        let secretAgentEnabled :=
          match annLookup s.annots AGENT_ENABLED_KEY with
          | none => false
          | some v => (goParseBool v).getD false
        let inheritsFrom := annLookup s.annots AGENT_INHERITS_FROM_KEY
        let noop : BridgeOutcome :=
          { events := ev2, requeueAfterSeconds := none, errored := false }
        if secretAgentEnabled && (inheritsFrom == none || inheritsFrom == some "") then noop
        else
          let managedByThis := inheritsFrom == some cert.uid
          if !(inheritsFrom == none) && !managedByThis then noop
          else
            let certificateAgentEnabled :=
              match annLookup cert.annots AGENT_ENABLED_KEY with
              | none => false
              | some v => (goParseBool v).getD false
            if !certificateAgentEnabled then
              if managedByThis then
                { events := ev2 ++ [.stripSecretAnnots env.stripUpdateOk],
                  requeueAfterSeconds := none, errored := false }
              else noop
            else
              if secretAgentEnabled && managedByThis then
                let secretArn := annGetD s.annots AGENT_CERTIFICATE_ARN_KEY
                if !(secretArn == "")
                    && !(annGetD cert.annots AGENT_CERTIFICATE_ARN_KEY == secretArn) then
                  if env.updateCertOk then
                    { events := ev2 ++ [.cacheArnUpdate true],
                      requeueAfterSeconds := none, errored := false }
                  else
                    { events := ev2 ++ [.cacheArnUpdate false],
                      requeueAfterSeconds := some defaultRequeueLatencySeconds,
                      errored := true }
                else noop
              else
                if env.addAnnotsUpdateOk then
                  { events := ev2 ++ [.seedSecretAnnots true],
                    requeueAfterSeconds := none, errored := false }
                else
                  { events := ev2 ++ [.seedSecretAnnots false],
                    requeueAfterSeconds := some defaultRequeueLatencySeconds,
                    errored := true }

/-! ## General lemmas about the annotation-map operations -/

theorem annLookup_annDel (m : AnnMap) (dk k : String) :
    annLookup (annDel m dk) k = if k = dk then none else annLookup m k := by
  unfold annLookup annDel
  rw [List.find?_filter]
  by_cases hk : k = dk
  · subst hk
    rw [if_pos rfl]
    have hnone : List.find?
        (fun a => decide ((!(a.1 == k)) = true ∧ (a.1 == k) = true)) m = none := by
      rw [List.find?_eq_none]
      intro x _
      simp only [decide_eq_true_eq, Bool.not_eq_true, not_and]
      intro h1
      simpa using h1
    rw [hnone]
    rfl
  · rw [if_neg hk]
    have hp : (fun (a : String × String) => decide ((!(a.1 == dk)) = true ∧ (a.1 == k) = true))
        = (fun (a : String × String) => a.1 == k) := by
      funext a
      by_cases h : a.1 = k
      · simp [h, hk]
      · simp [h]
    rw [hp]

/-! ## C10: exact frame of DeleteSecretManagementAnnotations -/

/-- C10: DeleteSecretManagementAnnotations removes exactly the enabled,
inherits-from, certificate-arn, expires and serial-number annotations
and leaves every other key, in particular the domains annotation,
unchanged. -/
theorem c10_delete_management_annots_frame (m : AnnMap) (k : String) :
    (annLookup (deleteSecretManagementAnnots m) k
      = if k ∈ managementKeys then none else annLookup m k)
    ∧ annLookup (deleteSecretManagementAnnots m) AGENT_CERTIFICATE_DOMAIN_NAMES_KEY
      = annLookup m AGENT_CERTIFICATE_DOMAIN_NAMES_KEY := by
  constructor
  · simp only [deleteSecretManagementAnnots, annLookup_annDel, managementKeys]
    split_ifs <;> simp_all
  · simp only [deleteSecretManagementAnnots, annLookup_annDel]
    have h : ∀ x ∈ managementKeys, AGENT_CERTIFICATE_DOMAIN_NAMES_KEY ≠ x := by decide
    simp only [managementKeys] at h
    simp [h AGENT_ENABLED_KEY, h AGENT_INHERITS_FROM_KEY, h AGENT_CERTIFICATE_ARN_KEY,
      h AGENT_CERTIFICATE_EXPIRY_DATE_KEY, h AGENT_CERTIFICATE_SERIAL_NUMBER_KEY]

/-! ## C1: the chain walk on a bundle holding a self-signed root -/

/-- Failing input for the chain walk: a leaf and the self-signed root
that issued it. -/
def selfSignedRoot : CertificateWrapper :=
  { pem := "PEM-ROOT", subjectDN := "CN=root", issuerDN := "CN=root", subjectCN := "root",
    serialNumber := 1, notBefore := 0, notAfter := 0, dnsNames := [] }

def leafFromRoot : CertificateWrapper :=
  { pem := "PEM-LEAF", subjectDN := "CN=leaf", issuerDN := "CN=root", subjectCN := "leaf",
    serialNumber := 2, notBefore := 0, notAfter := 0, dnsNames := [] }

def selfSignedBundle : List CertificateWrapper := [leafFromRoot, selfSignedRoot]

theorem chainWalk_selfSigned_stuck (n : Nat) :
    (chainWalk selfSignedBundle selfSignedRoot n).2 = false := by
  induction n with
  | zero => rfl
  | succ n ih =>
    have hfi : findIssuingCertificate selfSignedRoot selfSignedBundle = some selfSignedRoot := by
      decide
    simp [chainWalk, hfi, ih]

/-- C1: on a bundle containing a self-signed certificate the chain walk
never terminates, and the self-signed certificate is appended to the
intermediates: FindIssuingCertificate does not exclude the current
certificate, so the self-signed root is its own issuer. -/
theorem c1_selfsigned_walk_diverges (fuel : Nat) :
    findLeaf selfSignedBundle = some leafFromRoot
    ∧ (chainWalk selfSignedBundle leafFromRoot fuel).2 = false
    ∧ (chainWalk selfSignedBundle leafFromRoot (fuel + 1)).1.head? = some selfSignedRoot := by
  have hfi : findIssuingCertificate leafFromRoot selfSignedBundle = some selfSignedRoot := by
    decide
  refine ⟨by decide, ?_, ?_⟩
  · cases fuel with
    | zero => rfl
    | succ n => simp [chainWalk, hfi, chainWalk_selfSigned_stuck]
  · simp [chainWalk, hfi]

theorem c1_selfsigned_walk_diverges_witness :
    findLeaf selfSignedBundle = some leafFromRoot
    ∧ (chainWalk selfSignedBundle leafFromRoot 0).2 = false
    ∧ (chainWalk selfSignedBundle leafFromRoot 1).1.head? = some selfSignedRoot :=
  c1_selfsigned_walk_diverges 0

/-! ## C5: the expiry annotation round trip -/

/-- A concrete leaf NotAfter instant, 2025-06-01T00:00:00Z. -/
def sampleNotAfter : Int := 1748736000

/-- C5: formatting a NotAfter instant with ISO_8601_FORMAT emits the
characters plus-zero-seven-colon-zero-zero literally (a plus sign does
not begin a layout chunk), so parsing the written annotation back as
RFC 3339 interprets it at a plus-seven-hour zone and yields an instant
seven hours earlier than NotAfter. -/
theorem c5_expiry_roundtrip_shifts :
    goTimeFormat ISO_8601_FORMAT sampleNotAfter = "2025-06-01T00:00:00+07:00"
    ∧ goTimeParse RFC3339_LAYOUT (goTimeFormat ISO_8601_FORMAT sampleNotAfter)
        = some (sampleNotAfter - 25200)
    ∧ sampleNotAfter - 25200 ≠ sampleNotAfter := by
  refine ⟨by decide, by decide, by decide⟩

/-! ## C6: reconciliation request naming an absent secret -/

/-- C6: the not-found branch of the secret reconciler returns a nil
error but with RequeueAfter set to the default latency, so a retry is
scheduled. -/
theorem c6_notfound_schedules_requeue :
    secretFetchReturn .notFound
      = some { requeueAfterSeconds := some defaultRequeueLatencySeconds, errored := false }
    ∧ (some defaultRequeueLatencySeconds : Option Nat) ≠ none := by
  exact ⟨rfl, by decide⟩

/-! ## C8: finalizer is removed only after a successful strip -/

/-- C8: for a deleting certificate record whose finalizer is present and
whose bound secret is fetchable, every execution that performs a
successful finalizer-removing update performs a successful
annotation-stripping update of the secret strictly earlier in its event
trace. -/
theorem c8_finalizer_removed_after_strip (cert : CertRecord) (env : BridgeEnv) (s : K8sSecret)
    (hdel : cert.deleting = true)
    (hfin : containsString cert.finalizers finalizerID = true)
    (hsec : getSecretCall cert env = .ok s)
    (hrem : BridgeEvent.removeFinalizerUpdate true ∈ (reconcileBridge cert env).events) :
    ∃ i j, i < j
      ∧ (reconcileBridge cert env).events.get? i = some (.stripSecretAnnots true)
      ∧ (reconcileBridge cert env).events.get? j = some (.removeFinalizerUpdate true) := by
  simp only [reconcileBridge, hdel, hfin, hsec, if_true] at hrem ⊢
  cases hstrip : env.stripUpdateOk with
  | false =>
    rw [hstrip] at hrem
    simp at hrem
  | true =>
    rw [if_pos hstrip] at hrem
    rw [if_pos rfl]
    cases href : env.refetch with
    | ok c =>
      cases hupd : env.updateCertOk with
      | true =>
        refine ⟨1, 3, by decide, ?_, ?_⟩ <;> simp [bridgeFinalizerRemoval, href, hupd]
      | false =>
        rw [bridgeFinalizerRemoval, href] at hrem
        simp [hupd] at hrem
    | notFound =>
      rw [bridgeFinalizerRemoval, href] at hrem
      simp at hrem
    | failed =>
      rw [bridgeFinalizerRemoval, href] at hrem
      simp at hrem

def c8Cert : CertRecord :=
  { uid := "u1", secretName := "tls-secret", annots := [],
    finalizers := [finalizerID], deleting := true }

def c8Secret : K8sSecret := { name := "tls-secret", annots := [] }

def c8Env : BridgeEnv :=
  { secretGet := .ok c8Secret, stripUpdateOk := true, refetch := .ok c8Cert,
    updateCertOk := true, addAnnotsUpdateOk := true }

theorem c8_finalizer_removed_after_strip_witness :
    c8Cert.deleting = true
    ∧ containsString c8Cert.finalizers finalizerID = true
    ∧ getSecretCall c8Cert c8Env = .ok c8Secret
    ∧ BridgeEvent.removeFinalizerUpdate true ∈ (reconcileBridge c8Cert c8Env).events
    ∧ ∃ i j, i < j
      ∧ (reconcileBridge c8Cert c8Env).events.get? i = some (.stripSecretAnnots true)
      ∧ (reconcileBridge c8Cert c8Env).events.get? j = some (.removeFinalizerUpdate true) :=
  ⟨rfl, by decide, rfl, by decide,
    c8_finalizer_removed_after_strip c8Cert c8Env c8Secret rfl (by decide) rfl (by decide)⟩

/-! ## C4: which early exits remove the LB certificate-ARN annotation -/

def c4Arn : String := "arn:aws:acm:ap-southeast-2:1:certificate/abc"

/-- An ingress carrying the LB certificate-ARN annotation but no
agent-enabled annotation. -/
def c4Ingress : IngressState :=
  { annots := [(ALB_INGRESS_CERTIFICATE_ARN_KEY, c4Arn)], ruleHosts := [], deleting := false }

def c4Decoder : String → Option (List ListenPortMap) := fun _ => none

/-- C4 counterexample: the disabled exit performs no removal, so the LB
certificate-ARN annotation survives, contrary to the claim. -/
theorem c4_disabled_exit_keeps_arn :
    (reconcileIngress c4Decoder 0 [] c4Ingress true true).actions = []
    ∧ annLookup (reconcileIngress c4Decoder 0 [] c4Ingress true true).annots
        ALB_INGRESS_CERTIFICATE_ARN_KEY = some c4Arn :=
  ⟨by decide, by decide⟩

/-- C4 amended: only the exit where the listen-ports annotation
deserializes to a list without an HTTPS entry removes the LB
certificate-ARN annotation; the exits for a disabled agent annotation,
a missing or non-alb ingress class, a missing or empty listen-ports
annotation, and a failed deserialization leave the ingress untouched. -/
theorem c4_amended_cleanup_scope (decoder : String → Option (List ListenPortMap)) (now : Int)
    (secrets : List K8sSecret) (ing : IngressState) (listOk updateOk : Bool)
    (hdel : ing.deleting = false) :
    (ingressAgentEnabled ing = false →
      reconcileIngress decoder now secrets ing listOk updateOk = noopIngressOutcome ing)
    ∧ (ingressClassIsAlb ing = false →
      reconcileIngress decoder now secrets ing listOk updateOk = noopIngressOutcome ing)
    ∧ (annLookup ing.annots ALB_INGRESS_LISTEN_PORTS_KEY = none →
      reconcileIngress decoder now secrets ing listOk updateOk = noopIngressOutcome ing)
    ∧ (∀ v, annLookup ing.annots ALB_INGRESS_LISTEN_PORTS_KEY = some v →
        (v = "" ∨ decoder v = none) →
      reconcileIngress decoder now secrets ing listOk updateOk = noopIngressOutcome ing)
    ∧ (∀ v lps a, ingressAgentEnabled ing = true → ingressClassIsAlb ing = true →
        annLookup ing.annots ALB_INGRESS_LISTEN_PORTS_KEY = some v →
        ¬(v = "") → decoder v = some lps → hasHttpsEntry lps = false →
        annLookup ing.annots ALB_INGRESS_CERTIFICATE_ARN_KEY = some a →
        (reconcileIngress decoder now secrets ing listOk updateOk).actions = [.removeArnAnn]
        ∧ annLookup (reconcileIngress decoder now secrets ing listOk updateOk).annots
            ALB_INGRESS_CERTIFICATE_ARN_KEY = none) := by
  refine ⟨?_, ?_, ?_, ?_, ?_⟩
  · intro h
    simp [reconcileIngress, hdel, h]
  · intro h
    by_cases he : ingressAgentEnabled ing <;> simp [reconcileIngress, hdel, he, h]
  · intro h
    by_cases he : ingressAgentEnabled ing <;>
      by_cases hc : ingressClassIsAlb ing <;>
        simp [reconcileIngress, hdel, he, hc, h]
  · intro v hv hve
    by_cases he : ingressAgentEnabled ing <;>
      by_cases hc : ingressClassIsAlb ing <;>
        rcases hve with hve | hve <;>
          simp [reconcileIngress, hdel, he, hc, hv, hve]
  · intro v lps a he hc hv hve hdec hhttps ha
    simp [reconcileIngress, hdel, he, hc, hv, hve, hdec, hhttps, ha, annLookup_annDel]

theorem c4_amended_cleanup_scope_witness :
    c4Ingress.deleting = false
    ∧ ingressAgentEnabled c4Ingress = false
    ∧ reconcileIngress c4Decoder 0 [] c4Ingress true true = noopIngressOutcome c4Ingress :=
  ⟨rfl, by decide,
    (c4_amended_cleanup_scope c4Decoder 0 [] c4Ingress true true rfl).1 (by decide)⟩

/-! ## C2 and C3: cloud-call traces of the sync state machine -/

theorem syncAnnotsPhase_calls (d : CertificateDetails) (sa : AnnMap) (env : CloudEnv)
    (calls : List CloudCall) : (syncAnnotsPhase d sa env calls).calls = calls := by
  unfold syncAnnotsPhase
  dsimp only
  repeat' split
  all_goals rfl

def isImportCall : CloudCall → Bool
  | .importCertificate _ _ _ _ => true
  | _ => false

def isAddTagsCall : CloudCall → Bool
  | .addTagsToCertificate _ _ => true
  | _ => false

def createdAtTagKey : String := "tron/createdAt"

theorem syncAnnotsPhase_panicked (d : CertificateDetails) (sa : AnnMap) (env : CloudEnv)
    (calls : List CloudCall) : (syncAnnotsPhase d sa env calls).panicked = false := by
  unfold syncAnnotsPhase
  dsimp only
  repeat' split
  all_goals rfl

/-- C2 amended: with a prior ARN held and a serial mismatch on
describe, when the bundle carries at least one intermediate (so the
chain concatenation is non-nil) the reconciliation issues exactly
these four cloud calls in order: the describe, the tag listing, a
single import carrying the prior ARN, and one tag call after it (the
code tags after every import, not only after a create).  With an empty
intermediates list the reconciliation instead panics on the nil
dereference at line 232, after the describe and tag listing and before
any import. -/
theorem c2_amended_rotation_trace (cw : CertificateWrapper)
    (ints : List CertificateWrapper) (pk : String) (annots : AnnMap) (env : CloudEnv)
    (fuel : Nat) (prior serialStr acmArn newArn : String)
    (hparse : parsedCertificateArn annots = some prior)
    (hdesc : env.describe prior = .found serialStr acmArn)
    (hrot : ¬(parseAcmSerial serialStr = some cw.serialNumber))
    (himp : env.importResult = some newArn) :
    (∀ chainStr, certificateWrapperArrayToPEM ints = some chainStr →
      (reconcileSync cw ints pk annots env fuel).calls
        = [.describeCertificate prior,
           .listTagsForCertificate acmArn,
           .importCertificate cw.pem chainStr pk (some prior),
           .addTagsToCertificate newArn
             (createStandardTagArray env ((getACMCertificateTag env acmArn createdAtTagKey).2))]
      ∧ (reconcileSync cw ints pk annots env fuel).panicked = false)
    ∧ (ints = [] →
      (reconcileSync cw ints pk annots env fuel).panicked = true
      ∧ (reconcileSync cw ints pk annots env fuel).calls
        = [.describeCertificate prior, .listTagsForCertificate acmArn]) := by
  have hne : (parseAcmSerial serialStr == some cw.serialNumber) = false :=
    beq_eq_false_iff_ne.mpr hrot
  constructor
  · intro chainStr hchain
    simp only [reconcileSync, hparse, hdesc, getACMCertificateTag, createdAtTagKey]
    cases hat : env.addTagsOk <;>
      simp [syncImportPhase, hne, himp, hat, hchain, syncAnnotsPhase_calls,
        syncAnnotsPhase_panicked, getACMCertificateTag]
  · intro he
    subst he
    have hchain : certificateWrapperArrayToPEM ([] : List CertificateWrapper) = none := rfl
    simp only [reconcileSync, hparse, hdesc, getACMCertificateTag, createdAtTagKey]
    simp [syncImportPhase, hne, hchain, getACMCertificateTag]

def pkStr : String := "PRIVATE-KEY"
def pemLeafStr : String := "PEM-L"
def arnPrior : String := "arn:prior"
def serialOldStr : String := "01"
def nowStr0 : String := "2025-01-01T00:00:00Z"
def corrStr : String := "corr"

def leafExample : CertificateWrapper :=
  { pem := pemLeafStr, subjectDN := "CN=site", issuerDN := "CN=inter",
    subjectCN := "site.example.com", serialNumber := 2, notBefore := 0,
    notAfter := sampleNotAfter, dnsNames := ["site.example.com"] }

def interExample : CertificateWrapper :=
  { pem := "PEM-I", subjectDN := "CN=inter", issuerDN := "CN=absent", subjectCN := "inter",
    serialNumber := 3, notBefore := 0, notAfter := 0, dnsNames := [] }

def c2Annots : AnnMap := [(AGENT_CERTIFICATE_ARN_KEY, arnPrior)]

def c2Env : CloudEnv :=
  { describe := fun _ => .found serialOldStr arnPrior,
    listTags := fun _ => some [(createdAtTagKey, nowStr0)],
    listPage := fun _ => none,
    importResult := some arnPrior,
    addTagsOk := true, updateOk := true,
    nowStr := nowStr0, correlationId := corrStr }

/-- C2 counterexample: on a serial-rotation reconciliation the one
issued import does carry the prior ARN, yet a tag call is also issued,
contradicting the claim that no tag call happens. -/
theorem c2_rotation_issues_tag_call :
    List.filter isImportCall (reconcileSync leafExample [interExample] pkStr c2Annots c2Env 1).calls
      = [.importCertificate pemLeafStr (interExample.pem) pkStr (some arnPrior)]
    ∧ List.any (reconcileSync leafExample [interExample] pkStr c2Annots c2Env 1).calls
        isAddTagsCall = true :=
  ⟨by decide, by decide⟩

theorem c2_amended_rotation_trace_witness :
    parsedCertificateArn c2Annots = some arnPrior
    ∧ certificateWrapperArrayToPEM [interExample] = some (interExample.pem)
    ∧ (reconcileSync leafExample [interExample] pkStr c2Annots c2Env 1).calls
      = [.describeCertificate arnPrior,
         .listTagsForCertificate arnPrior,
         .importCertificate pemLeafStr (interExample.pem) pkStr (some arnPrior),
         .addTagsToCertificate arnPrior
           (createStandardTagArray c2Env ((getACMCertificateTag c2Env arnPrior createdAtTagKey).2))]
    ∧ (reconcileSync leafExample [interExample] pkStr c2Annots c2Env 1).panicked = false
    ∧ (reconcileSync leafExample [] pkStr c2Annots c2Env 1).panicked = true :=
  ⟨by decide, by decide,
    ((c2_amended_rotation_trace leafExample [interExample] pkStr c2Annots c2Env 1 arnPrior
      serialOldStr arnPrior arnPrior (by decide) rfl (by decide) rfl).1
      (interExample.pem) (by decide)).1,
    ((c2_amended_rotation_trace leafExample [interExample] pkStr c2Annots c2Env 1 arnPrior
      serialOldStr arnPrior arnPrior (by decide) rfl (by decide) rfl).1
      (interExample.pem) (by decide)).2,
    ((c2_amended_rotation_trace leafExample [] pkStr c2Annots c2Env 1 arnPrior
      serialOldStr arnPrior arnPrior (by decide) rfl (by decide) rfl).2 rfl).1⟩

/-- C3 amended: on a converged secret (prior ARN whose cloud serial
matches the leaf and all four annotations already at their computed
values) the reconciliation issues exactly the describe and the tag
listing that follows it, and performs no annotation update. -/
theorem c3_amended_converged_probe (cw : CertificateWrapper)
    (ints : List CertificateWrapper) (pk : String) (annots : AnnMap) (env : CloudEnv)
    (fuel : Nat) (arn serialStr acmArn : String)
    (hparse : parsedCertificateArn annots = some arn)
    (hdesc : env.describe arn = .found serialStr acmArn)
    (hser : parseAcmSerial serialStr = some cw.serialNumber)
    (hserAnn : annotMatchesVal annots AGENT_CERTIFICATE_SERIAL_NUMBER_KEY
      (formatX509SerialNumber cw.serialNumber) = true)
    (hexpAnn : annotMatchesVal annots AGENT_CERTIFICATE_EXPIRY_DATE_KEY
      (goTimeFormat ISO_8601_FORMAT cw.notAfter) = true)
    (hdomAnn : annotMatchesVal annots AGENT_CERTIFICATE_DOMAIN_NAMES_KEY
      (String.intercalate (", ") (extractCertificateDomains cw)) = true) :
    (reconcileSync cw ints pk annots env fuel).calls
      = [.describeCertificate arn, .listTagsForCertificate acmArn]
    ∧ (reconcileSync cw ints pk annots env fuel).wroteAnnots = false
    ∧ (reconcileSync cw ints pk annots env fuel).annots = annots
    ∧ (reconcileSync cw ints pk annots env fuel).errored = false
    ∧ (reconcileSync cw ints pk annots env fuel).requeueAfterSeconds = none := by
  have harn : annotMatchesVal annots AGENT_CERTIFICATE_ARN_KEY arn = true := by
    unfold parsedCertificateArn at hparse
    unfold annotMatchesVal
    by_cases h : annGetD annots AGENT_CERTIFICATE_ARN_KEY = ""
    · simp [h] at hparse
    · simp [h] at hparse
      simp [hparse]
  have hsb : (parseAcmSerial serialStr == some cw.serialNumber) = true :=
    beq_iff_eq.mpr hser
  simp only [annotMatchesVal, beq_iff_eq] at harn hserAnn hexpAnn hdomAnn
  simp [reconcileSync, hparse, hdesc, syncImportPhase, hsb, syncAnnotsPhase,
    annotMatchesVal, getACMCertificateTag, harn, hserAnn, hexpAnn, hdomAnn]

def c3SerialStr : String := "02"

def c3Annots : AnnMap :=
  [(AGENT_CERTIFICATE_ARN_KEY, arnPrior),
   (AGENT_CERTIFICATE_SERIAL_NUMBER_KEY, "02"),
   (AGENT_CERTIFICATE_EXPIRY_DATE_KEY, "2025-06-01T00:00:00+07:00"),
   (AGENT_CERTIFICATE_DOMAIN_NAMES_KEY, "site.example.com")]

def c3Env : CloudEnv :=
  { describe := fun _ => .found c3SerialStr arnPrior,
    listTags := fun _ => some [],
    listPage := fun _ => none,
    importResult := none,
    addTagsOk := true, updateOk := true,
    nowStr := nowStr0, correlationId := corrStr }

/-- C3 counterexample: on a converged secret the trace also contains a
ListTagsForCertificate call, so the reconciliation is not limited to a
single describe-by-ARN. -/
theorem c3_converged_also_lists_tags :
    CloudCall.listTagsForCertificate arnPrior
      ∈ (reconcileSync leafExample [] pkStr c3Annots c3Env 1).calls
    ∧ (reconcileSync leafExample [] pkStr c3Annots c3Env 1).calls
      ≠ [.describeCertificate arnPrior] :=
  ⟨by decide, by decide⟩

theorem c3_amended_converged_probe_witness :
    parsedCertificateArn c3Annots = some arnPrior
    ∧ (reconcileSync leafExample [] pkStr c3Annots c3Env 1).calls
      = [.describeCertificate arnPrior, .listTagsForCertificate arnPrior]
    ∧ (reconcileSync leafExample [] pkStr c3Annots c3Env 1).wroteAnnots = false :=
  ⟨by decide,
    (c3_amended_converged_probe leafExample [] pkStr c3Annots c3Env 1 arnPrior c3SerialStr
      arnPrior (by decide) rfl (by decide) (by decide) (by decide) (by decide)).1,
    (c3_amended_converged_probe leafExample [] pkStr c3Annots c3Env 1 arnPrior c3SerialStr
      arnPrior (by decide) rfl (by decide) (by decide) (by decide) (by decide)).2.1⟩

/-! ## C9: the LB certificate-ARN annotation value -/

/-- First-occurrence deduplication of a list, stated independently of
the inline fold the reconciler performs: keep the head and drop its
later duplicates. -/
def firstSeenDedup : List String → List String
  | [] => []
  | x :: rest => x :: firstSeenDedup (List.filter (fun y => !(y == x)) rest)
termination_by l => l.length
decreasing_by
  exact Nat.lt_succ_of_le (List.length_filter_le _ _)

theorem containsString_iff_mem (l : List String) (x : String) :
    containsString l x = true ↔ x ∈ l := by
  unfold containsString
  rw [List.any_eq_true]
  constructor
  · rintro ⟨a, ha, he⟩
    rw [beq_iff_eq] at he
    rwa [he] at ha
  · intro hx
    exact ⟨x, hx, beq_iff_eq.mpr rfl⟩

/-- The single step of the inline ARN deduplication at lines 165-167. -/
def dedupStep (acc : List String) (x : String) : List String :=
  if containsString acc x then acc else acc ++ [x]

theorem mem_firstSeenDedup (l : List String) (a : String) :
    a ∈ firstSeenDedup l ↔ a ∈ l := by
  induction l using firstSeenDedup.induct with
  | case1 => simp [firstSeenDedup]
  | case2 x rest ih =>
    rw [firstSeenDedup]
    by_cases hax : a = x
    · subst hax
      simp
    · simp only [List.mem_cons, ih, List.mem_filter]
      constructor
      · rintro (h | ⟨h, _⟩)
        · exact absurd h hax
        · exact Or.inr h
      · rintro (h | h)
        · exact absurd h hax
        · exact Or.inr ⟨h, by simpa using hax⟩

theorem nodup_firstSeenDedup (l : List String) : (firstSeenDedup l).Nodup := by
  induction l using firstSeenDedup.induct with
  | case1 => simp [firstSeenDedup]
  | case2 x rest ih =>
    rw [firstSeenDedup]
    refine List.nodup_cons.mpr ⟨?_, ih⟩
    intro hx
    rw [mem_firstSeenDedup, List.mem_filter] at hx
    simpa using hx.2

theorem foldl_dedupStep_eq (l acc : List String) :
    List.foldl dedupStep acc l
      = acc ++ firstSeenDedup (List.filter (fun y => !(containsString acc y)) l) := by
  induction l generalizing acc with
  | nil => simp [firstSeenDedup]
  | cons x t ih =>
    rw [List.foldl_cons]
    cases hc : containsString acc x with
    | true =>
      have hstep : dedupStep acc x = acc := by simp [dedupStep, hc]
      rw [hstep, ih]
      have hfe : List.filter (fun y => !(containsString acc y)) (x :: t)
          = List.filter (fun y => !(containsString acc y)) t := by
        simp [List.filter, hc]
      rw [hfe]
    | false =>
      have hstep : dedupStep acc x = acc ++ [x] := by simp [dedupStep, hc]
      rw [hstep, ih]
      have hfe : List.filter (fun y => !(containsString acc y)) (x :: t)
          = x :: List.filter (fun y => !(containsString acc y)) t := by
        simp [List.filter, hc]
      rw [hfe, firstSeenDedup, List.filter_filter, List.append_assoc]
      have hpe : List.filter (fun y => !(containsString (acc ++ [x]) y)) t
          = List.filter (fun a => (!(a == x)) && !(containsString acc a)) t := by
        refine List.filter_congr ?_
        intro y _
        unfold containsString
        rw [List.any_append]
        cases hy : List.any acc (fun item => item == y) <;> simp [List.any, hy, BEq.comm]
      rw [hpe]
      simp

theorem collectCertificateArns_spec (now : Int) (secrets : List K8sSecret)
    (hosts : List String) :
    collectCertificateArns now secrets hosts
      = (firstSeenDedup (List.filterMap (findCertificateArnForHost now secrets) hosts),
         List.any hosts (fun h => (findCertificateArnForHost now secrets h).isNone)) := by
  have hgen : ∀ (hs : List String) (acc : List String × Bool),
      List.foldl
        (fun (acc : List String × Bool) hostName =>
          match findCertificateArnForHost now secrets hostName with
          | none => (acc.1, true)
          | some arn => (if containsString acc.1 arn then acc.1 else acc.1 ++ [arn], acc.2))
        acc hs
      = (List.foldl dedupStep acc.1
          (List.filterMap (findCertificateArnForHost now secrets) hs),
         acc.2 || List.any hs (fun h => (findCertificateArnForHost now secrets h).isNone)) := by
    intro hs
    induction hs with
    | nil => intro acc; simp
    | cons h t iht =>
      intro acc
      rw [List.foldl_cons]
      cases hr : findCertificateArnForHost now secrets h with
      | none =>
        simp only [hr]
        rw [iht (acc.1, true)]
        simp [List.filterMap_cons, hr]
      | some arn =>
        simp only [hr]
        have hd : (if containsString acc.1 arn = true then acc.1 else acc.1 ++ [arn])
            = dedupStep acc.1 arn := rfl
        rw [hd, iht (dedupStep acc.1 arn, acc.2)]
        simp [List.filterMap_cons, hr, dedupStep]
  unfold collectCertificateArns
  rw [hgen hosts ([], false)]
  have hf : List.filter (fun y => !(containsString [] y))
      (List.filterMap (findCertificateArnForHost now secrets) hosts)
      = List.filterMap (findCertificateArnForHost now secrets) hosts := by
    have : ∀ x ∈ List.filterMap (findCertificateArnForHost now secrets) hosts,
        (fun y => !(containsString [] y)) x = (fun _ => true) x := by
      intro x _
      simp [containsString]
    rw [List.filter_congr this, List.filter_true]
  rw [foldl_dedupStep_eq, hf]
  simp

/-- C9: when the ingress reconciler runs to completion, the ARN list it
computes is the first-occurrence deduplication of the per-host
resolutions (so it is duplicate-free and ordered by the first host that
resolved to each ARN), and the comma-joined value is written exactly
when the current annotation value differs from it. -/
theorem c9_arn_value_firstseen_dedup (decoder : String → Option (List ListenPortMap))
    (now : Int) (secrets : List K8sSecret) (ing : IngressState) (listOk updateOk : Bool)
    (v : String) (lps : List ListenPortMap)
    (hdel : ing.deleting = false)
    (hen : ingressAgentEnabled ing = true)
    (hcl : ingressClassIsAlb ing = true)
    (hlp : annLookup ing.annots ALB_INGRESS_LISTEN_PORTS_KEY = some v)
    (hv : ¬(v = ""))
    (hdec : decoder v = some lps)
    (hhttps : hasHttpsEntry lps = true)
    (hlist : listOk = true)
    (hupd : updateOk = true) :
    (collectCertificateArns now secrets (hostNamesOf ing.ruleHosts)).1
      = firstSeenDedup (List.filterMap (findCertificateArnForHost now secrets)
          (hostNamesOf ing.ruleHosts))
    ∧ ((collectCertificateArns now secrets (hostNamesOf ing.ruleHosts)).1).Nodup
    ∧ (reconcileIngress decoder now secrets ing listOk updateOk).actions
      = (if annLookup ing.annots ALB_INGRESS_CERTIFICATE_ARN_KEY
            = some (String.intercalate (",")
              (collectCertificateArns now secrets (hostNamesOf ing.ruleHosts)).1)
         then []
         else [.writeArnAnn (String.intercalate (",")
              (collectCertificateArns now secrets (hostNamesOf ing.ruleHosts)).1)]) := by
  refine ⟨?_, ?_, ?_⟩
  · rw [collectCertificateArns_spec]
  · rw [collectCertificateArns_spec]
    exact nodup_firstSeenDedup _
  · simp only [reconcileIngress, hdel, hen, hcl, hlp, hv, hdec, hhttps, hlist, hupd]
    by_cases heq : annLookup ing.annots ALB_INGRESS_CERTIFICATE_ARN_KEY
        = some (String.intercalate (",")
            (collectCertificateArns now secrets (hostNamesOf ing.ruleHosts)).1)
    · simp [heq, hv]
    · simp [heq, hv]

def c9Secret : K8sSecret :=
  { name := "wild", annots :=
      [(AGENT_CERTIFICATE_ARN_KEY, arnPrior),
       (AGENT_CERTIFICATE_DOMAIN_NAMES_KEY, "*.example.com")] }

def c9Ingress : IngressState :=
  { annots :=
      [(AGENT_ENABLED_KEY, "true"),
       (ALB_INGRESS_CLASS_KEY, "alb"),
       (ALB_INGRESS_LISTEN_PORTS_KEY, "[\x7b\x22HTTPS\x22:443\x7d]")],
    ruleHosts := ["a.example.com", "b.example.com", "a.example.com"],
    deleting := false }

def c9Decoder : String → Option (List ListenPortMap) := fun _ => some [[("HTTPS", 443)]]

theorem c9_arn_value_firstseen_dedup_witness :
    ingressAgentEnabled c9Ingress = true
    ∧ (collectCertificateArns 0 [c9Secret] (hostNamesOf c9Ingress.ruleHosts)).1
      = firstSeenDedup (List.filterMap (findCertificateArnForHost 0 [c9Secret])
          (hostNamesOf c9Ingress.ruleHosts))
    ∧ ((collectCertificateArns 0 [c9Secret] (hostNamesOf c9Ingress.ruleHosts)).1).Nodup
    ∧ (reconcileIngress c9Decoder 0 [c9Secret] c9Ingress true true).actions
      = (if annLookup c9Ingress.annots ALB_INGRESS_CERTIFICATE_ARN_KEY
            = some (String.intercalate (",")
              (collectCertificateArns 0 [c9Secret] (hostNamesOf c9Ingress.ruleHosts)).1)
         then []
         else [.writeArnAnn (String.intercalate (",")
              (collectCertificateArns 0 [c9Secret] (hostNamesOf c9Ingress.ruleHosts)).1)]) := by
  have h := c9_arn_value_firstseen_dedup c9Decoder 0 [c9Secret] c9Ingress true true
    ("[\x7b\x22HTTPS\x22:443\x7d]") [[("HTTPS", 443)]] rfl (by decide) (by decide) (by decide)
    (by decide) rfl (by decide) rfl rfl
  exact ⟨by decide, h.1, h.2.1, h.2.2⟩

/-! ## C7: permutation invariance of leaf detection and chain order

A complete non-root chain with a unique leaf is a nonempty sequence
c0, c1, ..., cn of certificates with pairwise distinct subject DNs in
which each certificate is issued by the next and the issuer of the last
does not occur among the subjects (the root is not in the bundle). -/

/-- Each certificate is issued by its successor. -/
def chainLinked : List CertificateWrapper → Bool
  | a :: b :: t => (a.issuerDN == b.subjectDN) && chainLinked (b :: t)
  | _ => true

def lastIssuerDN : List CertificateWrapper → Option String
  | [] => none
  | [a] => some a.issuerDN
  | _ :: b :: t => lastIssuerDN (b :: t)

/-- The issuer of the last chain element is not a subject in the chain:
the bundle does not contain its root. -/
def rootAbsent (c : List CertificateWrapper) : Bool :=
  match lastIssuerDN c with
  | none => true
  | some s => !(List.any c (fun w => w.subjectDN == s))

theorem certAt_eq_get (l : List CertificateWrapper) (i : Nat) (h : i < l.length) :
    certAt l i = l.get ⟨i, h⟩ := by
  unfold certAt
  rw [List.getD_eq_getElem?_getD, List.getElem?_eq_getElem h]
  simp

theorem find?_eq_of_unique {α : Type} {p : α → Bool} {l : List α} {a : α}
    (ha : a ∈ l) (hpa : p a = true) (hu : ∀ b ∈ l, p b = true → b = a) :
    List.find? p l = some a := by
  induction l with
  | nil => cases ha
  | cons x t ih =>
    by_cases hx : p x = true
    · rw [List.find?_cons_of_pos t hx]
      rw [hu x (List.mem_cons_self _ _) hx]
    · rw [List.find?_cons_of_neg t (by simpa using hx)]
      have hat : a ∈ t := by
        rcases List.mem_cons.mp ha with h | h
        · subst h
          exact absurd hpa hx
        · exact h
      exact ih hat (fun b hb hpb => hu b (List.mem_cons_of_mem x hb) hpb)

theorem subjDN_inj {l : List CertificateWrapper}
    (hnd : (l.map (fun w => w.subjectDN)).Nodup) :
    ∀ a ∈ l, ∀ b ∈ l, a.subjectDN = b.subjectDN → a = b := by
  induction l with
  | nil => intro a ha; cases ha
  | cons x t ih =>
    rw [List.map_cons, List.nodup_cons] at hnd
    intro a ha b hb he
    rcases List.mem_cons.mp ha with ha1 | ha1 <;> rcases List.mem_cons.mp hb with hb1 | hb1
    · rw [ha1, hb1]
    · subst ha1
      exact absurd (he ▸ List.mem_map_of_mem (fun w => w.subjectDN) hb1) hnd.1
    · subst hb1
      exact absurd (he ▸ List.mem_map_of_mem (fun w => w.subjectDN) ha1) hnd.1
    · exact ih hnd.2 a ha1 b hb1 he

theorem issuer_mem_tail_or_last :
    ∀ (c : List CertificateWrapper), chainLinked c = true →
      ∀ y ∈ c, y.issuerDN ∈ (c.tail.map (fun w => w.subjectDN))
        ∨ lastIssuerDN c = some y.issuerDN
  | [], _, y, hy => by cases hy
  | [a], _, y, hy => by
    rcases List.mem_cons.mp hy with h | h
    · subst h
      exact Or.inr rfl
    · cases h
  | a :: b :: t, hc, y, hy => by
    rw [chainLinked] at hc
    have hc1 : a.issuerDN = b.subjectDN := by
      have := (Bool.and_eq_true _ _).mp hc
      exact beq_iff_eq.mp this.1
    have hc2 : chainLinked (b :: t) = true := ((Bool.and_eq_true _ _).mp hc).2
    rcases List.mem_cons.mp hy with h | h
    · subst h
      refine Or.inl ?_
      rw [hc1]
      exact List.mem_map_of_mem (fun w => w.subjectDN)
        (List.mem_cons_self b t)
    · rcases issuer_mem_tail_or_last (b :: t) hc2 y h with h2 | h2
      · refine Or.inl ?_
        simp only [List.tail_cons] at h2 ⊢
        rw [List.map_cons]
        rcases List.mem_map.mp h2 with ⟨w, hw, hwe⟩
        exact List.mem_cons_of_mem _ (hwe ▸ List.mem_map_of_mem (fun w => w.subjectDN) hw)
      · exact Or.inr h2

theorem no_issuer_of_head {c0 : CertificateWrapper} {ct : List CertificateWrapper}
    (hc : chainLinked (c0 :: ct) = true)
    (hnd : ((c0 :: ct).map (fun w => w.subjectDN)).Nodup)
    (hroot : rootAbsent (c0 :: ct) = true) :
    ∀ y ∈ (c0 :: ct), y.issuerDN ≠ c0.subjectDN := by
  intro y hy he
  rcases issuer_mem_tail_or_last (c0 :: ct) hc y hy with h | h
  · rw [List.map_cons, List.nodup_cons] at hnd
    rw [List.tail_cons] at h
    exact hnd.1 (he ▸ h)
  · unfold rootAbsent at hroot
    rw [h] at hroot
    simp only [Bool.not_eq_true'] at hroot
    have hco : ((c0 :: ct).any fun w => w.subjectDN == y.issuerDN) = true :=
      List.any_eq_true.mpr ⟨c0, List.mem_cons_self _ _, beq_iff_eq.mpr he.symm⟩
    rw [hroot] at hco
    cases hco

theorem tail_has_issuer :
    ∀ (c : List CertificateWrapper), chainLinked c = true →
      (c.map (fun w => w.subjectDN)).Nodup →
      ∀ x ∈ c.tail, ∃ z ∈ c, z.issuerDN = x.subjectDN ∧ z ≠ x
  | [], _, _, x, hx => by cases hx
  | [a], _, _, x, hx => by cases hx
  | a :: b :: t, hc, hnd, x, hx => by
    rw [chainLinked] at hc
    have hc1 : a.issuerDN = b.subjectDN := beq_iff_eq.mp ((Bool.and_eq_true _ _).mp hc).1
    have hc2 : chainLinked (b :: t) = true := ((Bool.and_eq_true _ _).mp hc).2
    rw [List.map_cons, List.nodup_cons] at hnd
    rw [List.tail_cons] at hx
    rcases List.mem_cons.mp hx with h | h
    · subst h
      refine ⟨a, (List.mem_cons_self _ _), hc1, ?_⟩
      intro hab
      apply hnd.1
      rw [hab]
      exact List.mem_map_of_mem (fun (w : CertificateWrapper) => w.subjectDN)
        (List.mem_cons_self _ _)
    · rcases tail_has_issuer (b :: t) hc2 hnd.2 x (by simpa using h) with ⟨z, hz, hze, hzn⟩
      exact ⟨z, List.mem_cons_of_mem a hz, hze, hzn⟩

theorem findLeaf_of_perm {c0 : CertificateWrapper} {ct l : List CertificateWrapper}
    (hc : chainLinked (c0 :: ct) = true)
    (hnd : ((c0 :: ct).map (fun w => w.subjectDN)).Nodup)
    (hroot : rootAbsent (c0 :: ct) = true)
    (hperm : l.Perm (c0 :: ct)) :
    findLeaf l = some c0 := by
  have hndl : (l.map (fun w => w.subjectDN)).Nodup :=
    ((hperm.map (fun w => w.subjectDN)).nodup_iff).mpr hnd
  have hndl2 : l.Nodup := List.Nodup.of_map _ hndl
  have hmem : c0 ∈ l := hperm.mem_iff.mpr (List.mem_cons_self _ _)
  rcases List.mem_iff_get.mp hmem with ⟨⟨i0, hi0⟩, hg0⟩
  have hpred0 : (!(subjectIssuesAnother l i0)) = true := by
    rw [Bool.not_eq_true', ← Bool.not_eq_true]
    intro hany
    rw [subjectIssuesAnother, List.any_eq_true] at hany
    rcases hany with ⟨j, hjr, hj⟩
    rw [List.mem_range] at hjr
    rcases (Bool.and_eq_true _ _).mp hj with ⟨_, hje⟩
    have hje2 : (certAt l j).issuerDN = (certAt l i0).subjectDN := beq_iff_eq.mp hje
    rw [certAt_eq_get l i0 hi0, hg0] at hje2
    have hyin : certAt l j ∈ c0 :: ct := by
      rw [certAt_eq_get l j hjr]
      exact hperm.mem_iff.mp (List.get_mem l j hjr)
    exact no_issuer_of_head hc hnd hroot _ hyin hje2
  have huniq : ∀ i ∈ List.range l.length, (!(subjectIssuesAnother l i)) = true → i = i0 := by
    intro i hir hpi
    rw [List.mem_range] at hir
    by_cases hx : certAt l i = c0
    · have := (@List.Nodup.get_inj_iff _ l hndl2 ⟨i, hir⟩ ⟨i0, hi0⟩).mp
        (by rw [hg0, ← hx, certAt_eq_get l i hir])
      exact congrArg Fin.val this
    · exfalso
      have hxin : certAt l i ∈ c0 :: ct := by
        rw [certAt_eq_get l i hir]
        exact hperm.mem_iff.mp (List.get_mem l i hir)
      have hxtail : certAt l i ∈ ct := by
        rcases List.mem_cons.mp hxin with h | h
        · exact absurd h hx
        · exact h
      rcases tail_has_issuer (c0 :: ct) hc hnd (certAt l i) (by simpa using hxtail)
        with ⟨z, hz, hze, hzn⟩
      have hzl : z ∈ l := hperm.mem_iff.mpr hz
      rcases List.mem_iff_get.mp hzl with ⟨⟨j, hj⟩, hgj⟩
      have hji : j ≠ i := by
        intro hji
        apply hzn
        rw [← hgj, ← certAt_eq_get l j hj, hji]
      rw [Bool.not_eq_true'] at hpi
      have : subjectIssuesAnother l i = true := by
        rw [subjectIssuesAnother, List.any_eq_true]
        refine ⟨j, List.mem_range.mpr hj, ?_⟩
        rw [Bool.and_eq_true]
        constructor
        · simpa using hji
        · rw [certAt_eq_get l j hj, hgj]
          exact beq_iff_eq.mpr hze
      rw [this] at hpi
      cases hpi
  unfold findLeaf
  rw [find?_eq_of_unique (List.mem_range.mpr hi0) hpred0
    (fun b hb hpb => huniq b hb hpb)]
  simp only [Option.map_some']
  rw [certAt_eq_get l i0 hi0, hg0]

theorem chainWalk_of_chain {l : List CertificateWrapper}
    (hndl : (l.map (fun w => w.subjectDN)).Nodup) :
    ∀ (d : List CertificateWrapper) (a : CertificateWrapper),
      chainLinked (a :: d) = true →
      (∀ x ∈ (a :: d), x ∈ l) →
      (∀ s, lastIssuerDN (a :: d) = some s → ∀ w ∈ l, w.subjectDN ≠ s) →
      ∀ fuel, d.length + 1 ≤ fuel →
      chainWalk l a fuel = (d, true) := by
  intro d
  induction d with
  | nil =>
    intro a _ _ hlast fuel hfuel
    match fuel, hfuel with
    | m + 1, _ =>
      have hfi : findIssuingCertificate a l = none := by
        unfold findIssuingCertificate
        rw [List.find?_eq_none]
        intro w hw
        simp only [Bool.not_eq_true]
        rw [← Bool.not_eq_true]
        intro hb
        exact hlast a.issuerDN rfl w hw (beq_iff_eq.mp hb)
      rw [chainWalk, hfi]
  | cons b t ih =>
    intro a hc hsub hlast fuel hfuel
    match fuel, hfuel with
    | m + 1, hfuel =>
      have hc1 : a.issuerDN = b.subjectDN := beq_iff_eq.mp ((Bool.and_eq_true _ _).mp hc).1
      have hc2 : chainLinked (b :: t) = true := ((Bool.and_eq_true _ _).mp hc).2
      have hfi : findIssuingCertificate a l = some b := by
        unfold findIssuingCertificate
        refine find?_eq_of_unique (hsub b (List.mem_cons_of_mem a (List.mem_cons_self _ _))) ?_ ?_
        · exact beq_iff_eq.mpr hc1.symm
        · intro w hw hpw
          exact subjDN_inj hndl w hw b (hsub b (List.mem_cons_of_mem a (List.mem_cons_self _ _)))
            (by rw [beq_iff_eq.mp hpw, hc1])
      have hrec : chainWalk l b m = (t, true) := by
        refine ih b hc2 (fun x hx => hsub x (List.mem_cons_of_mem a hx)) ?_ m ?_
        · intro s hs
          exact hlast s (by rw [← hs]; rfl)
        · simp only [List.length_cons] at hfuel
          omega
      rw [chainWalk, hfi]
      simp [hrec]

/-- C7: for a complete non-root chain with pairwise distinct subjects,
parsing any permutation of the bundle succeeds with the same leaf and
the same intermediate order, and the intermediates count is the block
count minus one. -/
theorem c7_parse_perm_invariant (c0 : CertificateWrapper) (ct l : List CertificateWrapper)
    (hc : chainLinked (c0 :: ct) = true)
    (hnd : ((c0 :: ct).map (fun w => w.subjectDN)).Nodup)
    (hroot : rootAbsent (c0 :: ct) = true)
    (hperm : l.Perm (c0 :: ct)) :
    ∀ fuel, l.length ≤ fuel →
      parseChain l fuel = some (c0, ct) ∧ ct.length = l.length - 1 := by
  intro fuel hfuel
  have hlen : l.length = ct.length + 1 := by
    rw [hperm.length_eq]
    simp
  have hndl : (l.map (fun w => w.subjectDN)).Nodup :=
    ((hperm.map (fun w => w.subjectDN)).nodup_iff).mpr hnd
  have hfl : findLeaf l = some c0 := findLeaf_of_perm hc hnd hroot hperm
  have hlast : ∀ s, lastIssuerDN (c0 :: ct) = some s → ∀ w ∈ l, w.subjectDN ≠ s := by
    intro s hs w hwl he
    unfold rootAbsent at hroot
    rw [hs] at hroot
    simp only [Bool.not_eq_true'] at hroot
    have : ∃ x, x ∈ (c0 :: ct) ∧ (x.subjectDN == s) = true :=
      ⟨w, hperm.mem_iff.mp hwl, beq_iff_eq.mpr he⟩
    rw [← List.any_eq_true] at this
    rw [hroot] at this
    cases this
  have hwalk : chainWalk l c0 fuel = (ct, true) :=
    chainWalk_of_chain hndl ct c0 hc (fun x hx => hperm.mem_iff.mpr hx) hlast fuel (by omega)
  constructor
  · unfold parseChain
    rw [hfl]
    dsimp only
    rw [hwalk]
    have hcnt : (ct.length == l.length - 1) = true := by
      rw [beq_iff_eq]
      omega
    simp [hcnt]
  · omega

def c7Leaf : CertificateWrapper :=
  { pem := "P0", subjectDN := "CN=l", issuerDN := "CN=i1", subjectCN := "l",
    serialNumber := 10, notBefore := 0, notAfter := 0, dnsNames := [] }

def c7Inter1 : CertificateWrapper :=
  { pem := "P1", subjectDN := "CN=i1", issuerDN := "CN=i2", subjectCN := "i1",
    serialNumber := 11, notBefore := 0, notAfter := 0, dnsNames := [] }

def c7Inter2 : CertificateWrapper :=
  { pem := "P2", subjectDN := "CN=i2", issuerDN := "CN=r", subjectCN := "i2",
    serialNumber := 12, notBefore := 0, notAfter := 0, dnsNames := [] }

def c7Shuffled : List CertificateWrapper := [c7Inter2, c7Leaf, c7Inter1]

theorem c7_parse_perm_invariant_witness :
    chainLinked [c7Leaf, c7Inter1, c7Inter2] = true
    ∧ rootAbsent [c7Leaf, c7Inter1, c7Inter2] = true
    ∧ parseChain c7Shuffled 3 = some (c7Leaf, [c7Inter1, c7Inter2])
    ∧ [c7Inter1, c7Inter2].length = c7Shuffled.length - 1 :=
  ⟨by decide, by decide,
    (c7_parse_perm_invariant c7Leaf [c7Inter1, c7Inter2] c7Shuffled (by decide) (by decide)
      (by decide) (by decide) 3 (by decide)).1,
    (c7_parse_perm_invariant c7Leaf [c7Inter1, c7Inter2] c7Shuffled (by decide) (by decide)
      (by decide) (by decide) 3 (by decide)).2⟩

end AcmAgent
